import Mathlib

/-!
Verification development for the nixos-installer TUI wizard.

The Rust source (src/app.rs, src/disk.rs, src/nix.rs) is shallowly embedded:
pure fragments become Lean functions, stateful methods become functions
App to App, and every external effect (spawned processes, filesystem
checks, mutex lock results) is passed in as an explicit environment value.
Machine integers are modelled as Nat with explicit reductions modulo 2^64
where Rust u64 arithmetic can wrap (release builds wrap on overflow).
-/

namespace Installer

/-- ASCII lowercase test, mirroring Rust char::is_ascii_lowercase. -/
def is_ascii_lowercase (c : Char) : Bool := 97 ≤ c.toNat && c.toNat ≤ 122

/-- ASCII digit test, mirroring Rust char::is_ascii_digit. -/
def is_ascii_digit (c : Char) : Bool := 48 ≤ c.toNat && c.toNat ≤ 57

/-- Whitespace set trimmed by Rust str::trim (ASCII portion). -/
def rustIsWhitespace (c : Char) : Bool :=
  c = ' ' || c = '\t' || c = '\n' || c = '\r' || c = '\x0b' || c = '\x0c'

/-- Rust str::trim: strip leading and trailing whitespace. -/
def rustTrim (s : String) : String :=
  ⟨((s.data.dropWhile rustIsWhitespace).reverse.dropWhile rustIsWhitespace).reverse⟩

/-- Split a character list on newline characters; a trailing newline yields a
trailing empty segment. -/
def splitOnNewline : List Char → List (List Char)
  | [] => [[]]
  | c :: rest =>
    if c = '\n' then [] :: splitOnNewline rest
    else
      match splitOnNewline rest with
      | [] => [[c]]
      | l :: ls => (c :: l) :: ls

/-- Strip one trailing carriage return, as Rust lines() does per line. -/
def stripCR (l : List Char) : List Char :=
  match l.getLast? with
  | some '\r' => l.dropLast
  | _ => l

/-- Rust str::lines: split on newline, drop the trailing empty segment
produced by a final newline, strip a trailing carriage return per line. -/
def rustLines (s : String) : List String :=
  let ps := splitOnNewline s.data
  let ps := match ps.getLast? with
    | some [] => ps.dropLast
    | _ => ps
  ps.map (fun l => ⟨stripCR l⟩)

/-- Digit-string to Nat (no sign handling). None when empty or non-digit. -/
def parseDigits (ds : List Char) : Option Nat :=
  if ds = [] then none
  else if ds.all is_ascii_digit then
    some (ds.foldl (fun a c => a * 10 + (c.toNat - 48)) 0)
  else none

/-- Modulus of 64-bit machine arithmetic. -/
def U64MOD : Nat := 2 ^ 64

/-- Rust str::parse for u64: optional leading plus sign, then digits,
rejecting values that overflow 64 bits. -/
def parseU64 (s : String) : Option Nat :=
  let cs := match s.data with
    | '+' :: rest => rest
    | cs => cs
  match parseDigits cs with
  | some n => if n < U64MOD then some n else none
  | none => none

/-- Rust str::parse for u8: optional leading plus sign, then digits,
rejecting values that overflow 8 bits. -/
def parseU8 (s : String) : Option Nat :=
  let cs := match s.data with
    | '+' :: rest => rest
    | cs => cs
  match parseDigits cs with
  | some n => if n < 256 then some n else none
  | none => none

/-- First character of a string, if any. -/
def firstChar (s : String) : Option Char := s.data.head?

-- ---------------------------------------------------------------------------
-- disk.rs data model
-- ---------------------------------------------------------------------------

/-- Shared state for the git clone progress (disk.rs CloneState). -/
structure CloneState where
  log : List String
  phase : String
  percent : Nat
  error : Option String
  done : Bool
deriving DecidableEq, Repr

/-- Filesystem kind (disk.rs FsType). -/
inductive FsType where
  | Fat32
  | Ext4
  | Btrfs
  | Swap
deriving DecidableEq, Repr

/-- disk.rs FsType::ALL, the order shown in the filesystem picker. -/
def FsType.all : List FsType := [.Fat32, .Ext4, .Btrfs, .Swap]

/-- A single planned partition (disk.rs PartitionPlan).  size_mb = none
means fill remaining space. -/
structure PartitionPlan where
  label : String
  mount_point : String
  size_mb : Option Nat
  fs_type : FsType
deriving DecidableEq, Repr

/-- A detected block device (disk.rs BlockDevice). -/
structure BlockDevice where
  name : String
  path : String
  size_bytes : Nat
  size_human : String
  model : String
deriving DecidableEq, Repr

-- ---------------------------------------------------------------------------
-- disk.rs clone_repo: byte-wise progress parsing
-- ---------------------------------------------------------------------------

/-- The prefix of the character list strictly before the first percent sign,
mirroring line.find followed by slicing in clone_repo.  none when the line
has no percent sign. -/
def beforePercent : List Char → Option (List Char)
  | [] => none
  | c :: rest =>
    if c = '%' then some []
    else (beforePercent rest).map (fun l => c :: l)

/-- Percentage extraction from one progress line: locate the first percent
sign and read the consecutive ASCII digits immediately preceding it, then
parse as u8. -/
def extractPercent (line : String) : Option Nat :=
  match beforePercent line.data with
  | none => none
  | some before =>
    let num : List Char := ((before.reverse.takeWhile is_ascii_digit).reverse)
    parseDigits num |>.bind (fun n => if n < 256 then some n else none)

/-- Handle one completed (carriage-return or newline terminated) raw chunk of
git stderr: trim, and if non-empty set the phase, try to update the percent,
and append the line to the log. -/
def processCloneLine (s : CloneState) (raw : String) : CloneState :=
  let line := rustTrim raw
  if line = "" then s
  else
    let s := { s with phase := line }
    let s := match extractPercent line with
      | some pct => { s with percent := pct }
      | none => s
    { s with log := s.log ++ [line] }

/-- The byte loop of clone_repo: buffer bytes until a carriage return or
newline, then process the completed chunk.  Returns the state and the
remaining partial buffer.  The stream is the stderr byte sequence, each byte
widened to a character exactly as Rust byte-as-char does. -/
def processCloneStream (s : CloneState) (buf : String) : List Char → CloneState × String
  | [] => (s, buf)
  | b :: rest =>
    if b = '\r' || b = '\n' then
      processCloneStream (processCloneLine s buf) "" rest
    else
      processCloneStream s (buf.push b) rest

/-- End-of-stream flush in clone_repo: a trailing non-empty partial line is
appended to the log only (no phase or percent update). -/
def flushCloneBuf (s : CloneState) (buf : String) : CloneState :=
  let line := rustTrim buf
  if line = "" then s else { s with log := s.log ++ [line] }

/-- Result of process::ExitStatus: success flag and optional exit code. -/
structure ExitStatus where
  success : Bool
  code : Option Int
deriving DecidableEq, Repr

/-- Outcome of spawning and running the git clone child process. -/
inductive CloneProc where
  | spawnFail (e : String)
  | run (stream : List Char) (wait : Except String ExitStatus)
deriving Repr

/-- Rust Debug formatting of an optional exit code. -/
def formatExitCode : Option Int → String
  | some c => "Some(" ++ toString c ++ ")"
  | none => "None"

/-- Initial clone state built in App::start_clone. -/
def initCloneState : CloneState :=
  { log := [], phase := "", percent := 0, error := none, done := false }

/-- disk.rs clone_repo, with the child process outcome passed in as data. -/
def clone_repo (url : String) (proc : CloneProc) (state : CloneState) : CloneState :=
  let s := { state with log := state.log ++ ["Cloning " ++ url ++ "..."] }
  let s := { s with phase := "Starting clone..." }
  match proc with
  | .spawnFail e =>
    let msg := "Failed to run git clone: " ++ e
    let s := { s with log := s.log ++ [msg] }
    { s with error := some msg }
  | .run stream wait =>
    let sb := processCloneStream s "" stream
    let s := flushCloneBuf sb.1 sb.2
    match wait with
    | .ok st =>
      if st.success then
        let s := { s with log := s.log ++ ["Clone completed successfully."] }
        { s with percent := 100, phase := "Clone complete!", done := true }
      else
        let msg := "git clone failed with exit code " ++ formatExitCode st.code
        let s := { s with log := s.log ++ [msg] }
        { s with error := some msg }
    | .error e =>
      let msg := "Failed to wait for git clone: " ++ e
      let s := { s with log := s.log ++ [msg] }
      { s with error := some msg }

-- ---------------------------------------------------------------------------
-- nix.rs data model
-- ---------------------------------------------------------------------------

/-- A discovered NixOS or Home Manager module (nix.rs NixModule). -/
structure NixModule where
  name : String
  selected : Bool
deriving DecidableEq, Repr

/-- An existing host preset (nix.rs HostPreset); path kept as a string. -/
structure HostPreset where
  name : String
  path : String
  has_hardware_config : Bool
deriving DecidableEq, Repr

-- ---------------------------------------------------------------------------
-- app.rs data model
-- ---------------------------------------------------------------------------

/-- A user being created during the wizard (app.rs UserEntry). -/
structure UserEntry where
  username : String
  password : String
  hm_modules : List NixModule
  package_modules : List NixModule
  needs_hm_selection : Bool
deriving DecidableEq, Repr

/-- Partition mode choice (app.rs PartitionMode). -/
inductive PartitionMode where
  | FullDisk
  | Custom
deriving DecidableEq, Repr

/-- Shared state between the installation worker and the UI
(app.rs InstallState). -/
structure InstallState where
  log : List String
  progress : Nat
  total : Nat
  error : Option String
  done : Bool
deriving DecidableEq, Repr

/-- All the wizard steps (app.rs Step). -/
inductive Step where
  | CloningRepo
  | SelectPreset
  | HostName
  | SelectNixosModules
  | SelectSystemPackages
  | CreateUser
  | AddAnotherUser
  | SelectHmModules
  | SelectUserPackages
  | SelectDisk
  | PartitionModeSelect
  | SwapSize
  | CustomPartitionMount
  | CustomPartitionSize
  | CustomPartitionFs
  | CustomPartitionAnother
  | Confirm
  | Installing
  | RootPassword
  | RootPasswordConfirm
  | UserPassword
  | UserPasswordConfirm
  | Complete
deriving DecidableEq, Repr

/-- The wizard-owned application state (app.rs App), restricted to the
fields read or written by the embedded operations.  shared_install models
the initial contents of the shared mutex record created by
start_installation; install_started models whether the background worker
thread was spawned. -/
structure App where
  step : Step
  is_custom : Bool
  host_name : String
  -- clone phase mirror fields
  clone_log : List String
  clone_phase : String
  clone_percent : Nat
  clone_error : Option String
  clone_done : Bool
  clone_log_scroll : Nat
  -- user management
  users : List UserEntry
  current_username : String
  -- HM module iteration
  hm_user_index : Nat
  hm_modules : List NixModule
  hm_cursor : Nat
  user_pkg_modules : List NixModule
  user_pkg_cursor : Nat
  -- disk selection
  disks : List BlockDevice
  disk_cursor : Nat
  selected_disk : Option BlockDevice
  -- partitioning
  partition_mode : PartitionMode
  partition_mode_cursor : Nat
  swap_size_input : String
  partitions : List PartitionPlan
  part_mount_input : String
  part_size_input : String
  part_fs_cursor : Nat
  -- confirm
  confirm_cursor : Nat
  -- add-another prompts
  another_user_cursor : Nat
  another_partition_cursor : Nat
  -- installation mirror fields
  install_log : List String
  install_progress : Nat
  install_total : Nat
  install_error : Option String
  install_done : Bool
  auto_scroll : Bool
  shared_install : Option InstallState
  install_started : Bool
  -- status display
  status_message : Option String
  -- installer configuration (config.toml hook lists)
  pre_install_hooks : List String
  post_install_hooks : List String
deriving DecidableEq, Repr

/-- A concrete App value used to instantiate witnesses. -/
def defaultApp : App where
  step := .SelectPreset
  is_custom := false
  host_name := ""
  clone_log := []
  clone_phase := ""
  clone_percent := 0
  clone_error := none
  clone_done := false
  clone_log_scroll := 0
  users := []
  current_username := ""
  hm_user_index := 0
  hm_modules := []
  hm_cursor := 0
  user_pkg_modules := []
  user_pkg_cursor := 0
  disks := []
  disk_cursor := 0
  selected_disk := none
  partition_mode := .FullDisk
  partition_mode_cursor := 0
  swap_size_input := "4"
  partitions := []
  part_mount_input := ""
  part_size_input := ""
  part_fs_cursor := 0
  confirm_cursor := 0
  another_user_cursor := 0
  another_partition_cursor := 0
  install_log := []
  install_progress := 0
  install_total := 8
  install_error := none
  install_done := false
  auto_scroll := true
  shared_install := none
  install_started := false
  status_message := none
  pre_install_hooks := []
  post_install_hooks := []

-- ---------------------------------------------------------------------------
-- app.rs: synchronization with the background workers
-- ---------------------------------------------------------------------------

/-- App::sync_clone_state.  lockResult models self.shared_clone and the
mutex lock outcome: none when no clone was started, Except.error when the
lock is poisoned (the payload is the poisoned inner state, which the code
ignores), Except.ok when the lock is acquired. -/
def sync_clone_state (lockResult : Option (Except CloneState CloneState)) (a : App) : App :=
  let a := match lockResult with
    | none => a
    | some (.ok s) =>
      { a with clone_log := s.log, clone_phase := s.phase,
               clone_percent := s.percent, clone_error := s.error,
               clone_done := s.done }
    | some (.error _) =>
      { a with clone_error := some "Clone thread crashed unexpectedly",
               clone_done := true }
  if a.auto_scroll && !(a.clone_log = []) then
    { a with clone_log_scroll := a.clone_log.length - 1 }
  else a

/-- App::sync_install_state, with the lock outcome passed in as for
sync_clone_state. -/
def sync_install_state (lockResult : Option (Except InstallState InstallState)) (a : App) : App :=
  match lockResult with
  | none => a
  | some (.ok s) =>
    { a with install_log := s.log, install_progress := s.progress,
             install_total := s.total, install_error := s.error,
             install_done := s.done }
  | some (.error _) =>
    { a with install_error := some "Installation thread crashed unexpectedly" }

-- ---------------------------------------------------------------------------
-- app.rs: go-back navigation
-- ---------------------------------------------------------------------------

/-- App::go_back: returns whether reversal occurred together with the new
state. -/
def go_back (a : App) : Bool × App :=
  match a.step with
  | .CloningRepo | .SelectPreset => (false, a)
  | .HostName => (true, { a with step := .SelectPreset })
  | .SelectNixosModules => (true, { a with step := .HostName })
  | .SelectSystemPackages => (true, { a with step := .SelectNixosModules })
  | .CreateUser =>
    if a.is_custom then (true, { a with step := .SelectSystemPackages })
    else (true, { a with step := .SelectPreset })
  | .AddAnotherUser => (false, a)
  | .SelectHmModules => (false, a)
  | .SelectUserPackages => (false, a)
  | .SelectDisk => (false, a)
  | .PartitionModeSelect => (true, { a with step := .SelectDisk })
  | .SwapSize => (true, { a with step := .PartitionModeSelect })
  | .CustomPartitionMount =>
    if a.partitions = [] then (true, { a with step := .PartitionModeSelect })
    else (true, { a with step := .CustomPartitionAnother })
  | .CustomPartitionSize => (true, { a with step := .CustomPartitionMount })
  | .CustomPartitionFs => (true, { a with step := .CustomPartitionSize })
  | .CustomPartitionAnother => (false, a)
  | .Confirm => (true, { a with step := .PartitionModeSelect })
  | .Installing | .RootPassword | .RootPasswordConfirm
  | .UserPassword | .UserPasswordConfirm | .Complete => (false, a)

-- ---------------------------------------------------------------------------
-- app.rs: user creation
-- ---------------------------------------------------------------------------

/-- App::confirm_username.  user_config_exists models
nix::user_config_exists(base_path, host, name), a filesystem probe, as a
function of the host name and username. -/
def confirm_username (user_config_exists : String → String → Bool) (a : App) : App :=
  let name := rustTrim a.current_username
  if name = "" then
    { a with status_message := some "Username cannot be empty" }
  else if !(name.data.all fun c => is_ascii_lowercase c || is_ascii_digit c || c = '-' || c = '_')
       || !((name.data.head?.map fun c => is_ascii_lowercase c || c = '_').getD false) then
    let msg := "Username must start with a lowercase letter or underscore"
    { a with status_message := some msg }
  else if a.users.any fun u => u.username = name then
    { a with status_message := some "User already exists" }
  else
    let needs_hm := !user_config_exists a.host_name name
    let entry : UserEntry :=
      { username := name, password := "", hm_modules := [],
        package_modules := [], needs_hm_selection := needs_hm }
    { a with status_message := none, users := a.users ++ [entry],
             current_username := "", step := .AddAnotherUser }

-- ---------------------------------------------------------------------------
-- app.rs: partition planning
-- ---------------------------------------------------------------------------

/-- App::confirm_partition_mode. -/
def confirm_partition_mode (a : App) : App :=
  if a.partition_mode_cursor = 0 then
    { a with partition_mode := .FullDisk, step := .SwapSize }
  else
    { a with partition_mode := .Custom, partitions := [],
             step := .CustomPartitionMount }

/-- App::confirm_swap_size.  The swap size in MiB is computed with u64
arithmetic, so the product is reduced modulo 2^64. -/
def confirm_swap_size (a : App) : App :=
  let input := rustTrim a.swap_size_input
  let swapOpt : Option Nat := if input = "" then some 0 else parseU64 input
  match swapOpt with
  | none =>
    let msg := "Invalid swap size. Enter a whole number in GiB (e.g. 4) or leave empty for no swap."
    { a with status_message := some msg }
  | some swap_gb =>
    let parts : List PartitionPlan :=
      [{ label := "EFI", mount_point := "/boot", size_mb := some 512,
         fs_type := .Fat32 }]
      ++ (if swap_gb > 0 then
            [{ label := "swap", mount_point := "swap",
               size_mb := some ((swap_gb * 1024) % U64MOD), fs_type := .Swap }]
          else [])
      ++ [{ label := "root", mount_point := "/", size_mb := none,
            fs_type := .Ext4 }]
    { a with partitions := parts, step := .Confirm }

/-- App::confirm_custom_mount. -/
def confirm_custom_mount (a : App) : App :=
  let mount := rustTrim a.part_mount_input
  if mount = "" then
    { a with status_message := some "Mount point cannot be empty" }
  else if mount ≠ "swap" && !(mount.data.head? = some '/') then
    { a with status_message := some "Mount point must start with '/' or be 'swap'" }
  else
    { a with status_message := none, step := .CustomPartitionSize }

/-- App::confirm_custom_size. -/
def confirm_custom_size (a : App) : App :=
  { a with status_message := none, step := .CustomPartitionFs }

/-- Rust str::trim_start_matches applied to a single slash pattern. -/
def trimStartSlashes (s : String) : String :=
  ⟨s.data.dropWhile fun c => c = '/'⟩

/-- Rust str::replace of the slash character by a hyphen. -/
def replaceSlashDash (s : String) : String :=
  ⟨s.data.map fun c => if c = '/' then '-' else c⟩

/-- App::confirm_custom_fs.  Rust indexes fs_types by the cursor and would
panic out of range; the picker keeps the cursor within FsType::all, and the
embedding falls back to the first entry out of range. -/
def confirm_custom_fs (a : App) : App :=
  let fs := FsType.all.getD a.part_fs_cursor .Fat32
  let mount := rustTrim a.part_mount_input
  let sizeRes : Except String (Option Nat) :=
    if rustTrim a.part_size_input = "" then .ok none
    else
      match parseU64 (rustTrim a.part_size_input) with
      | some v =>
        if v > 0 then .ok (some ((v * 1024) % U64MOD))
        else .error "Size must be greater than 0."
      | none =>
        .error "Invalid size. Enter a whole number in GiB or leave empty for remaining space."
  match sizeRes with
  | .error m => { a with status_message := some m }
  | .ok size_mb =>
    let label :=
      if mount = "/" then "root"
      else if mount = "/boot" then "EFI"
      else if mount = "swap" then "swap"
      else replaceSlashDash (trimStartSlashes mount)
    let entry : PartitionPlan :=
      { label := label, mount_point := mount, size_mb := size_mb, fs_type := fs }
    { a with partitions := a.partitions ++ [entry],
             part_mount_input := "", part_size_input := "", part_fs_cursor := 0,
             step := .CustomPartitionAnother }

/-- App::confirm_custom_another. -/
def confirm_custom_another (a : App) : App :=
  let a :=
    if a.another_partition_cursor = 0 then { a with step := .CustomPartitionMount }
    else { a with step := .Confirm }
  { a with another_partition_cursor := 0 }

-- ---------------------------------------------------------------------------
-- app.rs: install confirmation
-- ---------------------------------------------------------------------------

/-- App::start_installation, up to the point the worker thread is spawned:
computes the fixed total, creates the shared record, and either records the
missing-disk error without spawning or spawns the worker
(install_started := true). -/
def start_installation (a : App) : App :=
  let total := 9 + a.pre_install_hooks.length + a.post_install_hooks.length
  let st : InstallState := { log := [], progress := 0, total := total,
                             error := none, done := false }
  match a.selected_disk with
  | none =>
    let errSt := { st with error := some "No disk selected",
                           log := ["ERROR: No disk selected"] }
    { a with shared_install := some errSt }
  | some _ =>
    { a with shared_install := some st, install_started := true }

/-- App::confirm_install. -/
def confirm_install (a : App) : App :=
  if a.confirm_cursor = 0 then
    if !(a.partitions.any fun p => p.mount_point = "/") then
      let msg := "No root (/) partition defined. Please go back and add one."
      { a with status_message := some msg }
    else
      start_installation { a with step := .Installing }
  else
    { a with step := .PartitionModeSelect }

-- ---------------------------------------------------------------------------
-- app.rs: HM module selection walk
-- ---------------------------------------------------------------------------

/-- External collaborators consulted during the selection walk: module
scanning (nix.rs) and block-device listing (disk.rs lsblk). -/
structure ScanEnv where
  scan_hm_modules : List NixModule
  scan_package_modules : List NixModule
  list_block_devices : Except String (List BlockDevice)

/-- App::go_to_disk_selection. -/
def go_to_disk_selection (env : ScanEnv) (a : App) : App :=
  let a := match env.list_block_devices with
    | .ok ds => { a with disks := ds }
    | .error e =>
      { a with disks := [], status_message := some ("Failed to list disks: " ++ e) }
  { a with disk_cursor := 0, step := .SelectDisk }

/-- App::advance_to_next_hm_user: find the next user needing HM selection,
scan modules for it and enter SelectHmModules, or fall through to disk
selection. -/
def advance_to_next_hm_user (env : ScanEnv) (a : App) : App :=
  if h : a.hm_user_index < a.users.length then
    let u := a.users.get ⟨a.hm_user_index, h⟩
    if u.needs_hm_selection then
      let u2 := { u with hm_modules := env.scan_hm_modules,
                         package_modules := env.scan_package_modules }
      { a with users := a.users.set a.hm_user_index u2,
               hm_modules := env.scan_hm_modules,
               hm_cursor := 0,
               step := .SelectHmModules }
    else
      advance_to_next_hm_user env { a with hm_user_index := a.hm_user_index + 1 }
  else
    go_to_disk_selection env a
termination_by a.users.length - a.hm_user_index
decreasing_by all_goals (simp; omega)

/-- App::begin_hm_selection. -/
def begin_hm_selection (env : ScanEnv) (a : App) : App :=
  advance_to_next_hm_user env { a with hm_user_index := 0 }

/-- App::confirm_another_user. -/
def confirm_another_user (env : ScanEnv) (a : App) : App :=
  let a :=
    if a.another_user_cursor = 0 then { a with step := .CreateUser }
    else begin_hm_selection env a
  { a with another_user_cursor := 0 }

/-- App::confirm_hm_modules.  Rust indexes users by hm_user_index and would
panic out of range; that index is always in range when this step is shown,
and the embedding leaves the state unchanged out of range. -/
def confirm_hm_modules (a : App) : App :=
  match a.users.get? a.hm_user_index with
  | none => a
  | some u =>
    let a := { a with users := a.users.set a.hm_user_index { u with hm_modules := a.hm_modules } }
    { a with user_pkg_modules := u.package_modules, user_pkg_cursor := 0,
             step := .SelectUserPackages }

/-- App::confirm_user_packages. -/
def confirm_user_packages (env : ScanEnv) (a : App) : App :=
  match a.users.get? a.hm_user_index with
  | none => a
  | some u =>
    let a := { a with users := a.users.set a.hm_user_index { u with package_modules := a.user_pkg_modules } }
    advance_to_next_hm_user env { a with hm_user_index := a.hm_user_index + 1 }

/-- Drive the selection walk after advance_to_next_hm_user, recording every
(user index, step) screen the wizard shows and confirming each screen, until
the wizard leaves the selection steps.  Fuel bounds the number of screens;
users.length screens always suffice since the index strictly increases. -/
def run_hm_phase_aux (env : ScanEnv) : Nat → App → List (Nat × Step) × App
  | 0, a => ([], a)
  | fuel + 1, a =>
    if a.step = Step.SelectHmModules then
      let i := a.hm_user_index
      let a2 := confirm_user_packages env (confirm_hm_modules a)
      let r := run_hm_phase_aux env fuel a2
      ((i, Step.SelectHmModules) :: (i, Step.SelectUserPackages) :: r.1, r.2)
    else ([], a)

/-- The whole selection phase as entered from the add-another-user prompt:
begin at user index 0 and walk every user, confirming each shown screen. -/
def run_hm_phase (env : ScanEnv) (a : App) : List (Nat × Step) × App :=
  run_hm_phase_aux env a.users.length (begin_hm_selection env a)

/-- Whether the user at a given index needs HM selection (false out of
range). -/
def needsAt (users : List UserEntry) (k : Nat) : Bool :=
  match users.get? k with
  | some u => u.needs_hm_selection
  | none => false

/-- The indices at or beyond i whose user needs HM selection, in order.
Specification-side closed form for the walk. -/
def needyFrom (users : List UserEntry) (i : Nat) : List Nat :=
  if h : i < users.length then
    if (users.get ⟨i, h⟩).needs_hm_selection then i :: needyFrom users (i + 1)
    else needyFrom users (i + 1)
  else []
termination_by users.length - i
decreasing_by all_goals omega

-- ---------------------------------------------------------------------------
-- app.rs: the install pipeline worker
-- ---------------------------------------------------------------------------

/-- Outcome of spawning and running the nixos-install child process; the
stderr stream is read with BufRead lines. -/
inductive InstallProc where
  | spawnFail (e : String)
  | run (stderr : String) (wait : Except String ExitStatus)

/-- Outcomes of every external operation the install worker performs, in
the order the stages invoke them. -/
structure InstallEnv where
  partition_disk : Except String Unit
  format_and_mount : Except String Unit
  generate_hardware_config : Except String String
  write_hardware_config : Except String Unit
  write_host_config : Except String Unit
  write_user_config : String → Except String Unit
  git_add_all : Except String Unit
  run_hook : String → Except String String
  nixos_install : InstallProc
  copy_repo_to_target : Except String Unit

/-- The values captured from App by value before the worker thread starts. -/
structure InstallInputs where
  disk_path : String
  partitions : List PartitionPlan
  base_path : String
  host_name : String
  is_custom : Bool
  users : List UserEntry
  pre_hooks : List String
  post_hooks : List String

/-- Append one message to the shared log (the log closure in the worker;
the persistent file append is outside the shared state). -/
def ilog (s : InstallState) (m : String) : InstallState :=
  { s with log := s.log ++ [m] }

/-- Append an error message to the shared log line by line, each prefixed
ERROR (the log_error closure). -/
def ilogError (s : InstallState) (m : String) : InstallState :=
  { s with log := s.log ++ (rustLines m).map (fun l => "ERROR: " ++ l) }

/-- Set the progress counter (the set_progress closure). -/
def iprog (s : InstallState) (p : Nat) : InstallState :=
  { s with progress := p }

/-- Record the terminal error (the fail closure). -/
def ifail (s : InstallState) (m : String) : InstallState :=
  { s with error := some m }

/-- Stage 6 loop: write one user definition file per user, aborting on the
first failure. -/
def writeUserStage (env : InstallEnv) : List UserEntry → InstallState → Except InstallState InstallState
  | [], s => .ok s
  | u :: rest, s =>
    let s := ilog s ("Writing user-" ++ u.username ++ ".nix...")
    match env.write_user_config u.username with
    | .ok _ => writeUserStage env rest s
    | .error e =>
      let msg := "Failed to write user config: " ++ e
      .error (ifail (ilogError s msg) msg)

/-- Log every non-blank line of a hook's combined output. -/
def logHookOutput (s : InstallState) (output : String) : InstallState :=
  (rustLines output).foldl
    (fun s line =>
      let trimmed := rustTrim line
      if trimmed = "" then s else ilog s ("  [hook] " ++ trimmed))
    s

/-- Hook loop shared by the pre- and post-install stages: log the start
message, bump progress to the running counter, run the hook, log its output,
abort the pipeline on nonzero exit.  capKind is the capitalized kind used in
failure messages, kind the lowercase kind used in start messages. -/
def runHookStage (env : InstallEnv) (capKind kind : String) :
    List String → Nat → InstallState → Except InstallState (InstallState × Nat)
  | [], counter, s => .ok (s, counter)
  | h :: rest, counter, s =>
    let s := ilog s ("Running " ++ kind ++ "-install hook: " ++ h ++ "...")
    let s := iprog s counter
    match env.run_hook h with
    | .ok output =>
      runHookStage env capKind kind rest (counter + 1) (logHookOutput s output)
    | .error e =>
      let msg := capKind ++ "-install hook failed: " ++ e
      .error (ifail (ilogError s msg) msg)

/-- Log every non-blank trimmed stderr line of nixos-install. -/
def logInstallStderr (s : InstallState) (stderr : String) : InstallState :=
  (rustLines stderr).foldl
    (fun s line =>
      let trimmed := rustTrim line
      if trimmed = "" then s else ilog s trimmed)
    s

/-- The background install worker spawned by App::start_installation,
returning the final contents of the shared state.  Every stage logs its
start message, bumps the progress counter, performs its unit of work
through the environment, and on failure records the terminal error and
stops. -/
def run_install_worker (env : InstallEnv) (inp : InstallInputs) : InstallState :=
  let total := 9 + inp.pre_hooks.length + inp.post_hooks.length
  let s : InstallState := { log := [], progress := 0, total := total,
                            error := none, done := false }
  -- Step 1: Partition
  let s := ilog s ("Partitioning " ++ inp.disk_path ++ "...")
  let s := iprog s 1
  match env.partition_disk with
  | .error e =>
    let msg := "Partitioning failed: " ++ e
    ifail (ilogError s msg) msg
  | .ok _ =>
  -- Step 2: Format and mount
  let s := ilog s "Formatting and mounting partitions..."
  let s := iprog s 2
  match env.format_and_mount with
  | .error e =>
    let msg := "Format/mount failed: " ++ e
    ifail (ilogError s msg) msg
  | .ok _ =>
  -- Step 3: Generate hardware config
  let s := ilog s "Generating hardware configuration..."
  let s := iprog s 3
  match env.generate_hardware_config with
  | .error e =>
    let msg := "Hardware config generation failed: " ++ e
    ifail (ilogError s msg) msg
  | .ok _ =>
  -- Step 4: Write hardware config
  let s := ilog s "Writing hardware configuration..."
  let s := iprog s 4
  match env.write_hardware_config with
  | .error e =>
    let msg := "Failed to write hardware config: " ++ e
    ifail (ilogError s msg) msg
  | .ok _ =>
  -- Step 5: Write host configuration (if custom)
  let s := iprog s 5
  let hostRes : Except InstallState InstallState :=
    if inp.is_custom then
      let s := ilog s "Writing host configuration..."
      match env.write_host_config with
      | .ok _ => .ok s
      | .error e =>
        let msg := "Failed to write configuration: " ++ e
        .error (ifail (ilogError s msg) msg)
    else .ok s
  match hostRes with
  | .error s => s
  | .ok s =>
  -- Step 6: Write user definition files
  match writeUserStage env inp.users s with
  | .error s => s
  | .ok s =>
  -- Step 7: Stage generated files
  let s := ilog s "Staging generated files (git add)..."
  let s := iprog s 6
  match env.git_add_all with
  | .error e =>
    let msg := "git add failed: " ++ e
    ifail (ilogError s msg) msg
  | .ok _ =>
  -- Pre-install hooks
  match runHookStage env "Pre" "pre" inp.pre_hooks 7 s with
  | .error s => s
  | .ok (s, counter) =>
  -- Step N: Run nixos-install
  let s := ilog s "Running nixos-install (this may take a while)..."
  let s := iprog s counter
  let counter := counter + 1
  match env.nixos_install with
  | .spawnFail e =>
    let msg := "Failed to run nixos-install: " ++ e
    ifail (ilogError s msg) msg
  | .run stderr wait =>
  let s := logInstallStderr s stderr
  match wait with
  | .error e =>
    let msg := "Failed to wait for nixos-install: " ++ e
    ifail (ilogError s msg) msg
  | .ok st =>
  if !st.success then
    let msg := "nixos-install failed with exit code " ++ formatExitCode st.code
    ifail (ilogError s msg) msg
  else
  -- Copy repository to target
  let s := iprog s counter
  let counter := counter + 1
  let s := ilog s "Copying repository to /mnt/etc/nixos/..."
  match env.copy_repo_to_target with
  | .error e =>
    let msg := "Failed to copy repo to target: " ++ e
    ifail (ilogError s msg) msg
  | .ok _ =>
  -- Post-install hooks
  match runHookStage env "Post" "post" inp.post_hooks counter s with
  | .error s => s
  | .ok (s, counter) =>
  let s := iprog s counter
  let s := ilog s "Installation complete!"
  { s with done := true }

/-- The start messages of every stage strictly after stage 3 (hardware
config generation), as claimed never to appear when stage 3 fails. -/
def laterStageStartMessages (inp : InstallInputs) : List String :=
  ["Writing hardware configuration...",
   "Writing host configuration...",
   "Staging generated files (git add)...",
   "Running nixos-install (this may take a while)...",
   "Copying repository to /mnt/etc/nixos/...",
   "Installation complete!"]
  ++ inp.users.map (fun u => "Writing user-" ++ u.username ++ ".nix...")
  ++ inp.pre_hooks.map (fun h => "Running pre-install hook: " ++ h ++ "...")
  ++ inp.post_hooks.map (fun h => "Running post-install hook: " ++ h ++ "...")

-- ---------------------------------------------------------------------------
-- Specification-side definitions (from the spec wording, for comparison)
-- ---------------------------------------------------------------------------

/-- Label derivation exactly as the specification words it: slash maps to
root, /boot to EFI, swap to swap, and any other mount point to the path
with slashes replaced by hyphens. -/
def specLabelOfMount (mount : String) : String :=
  if mount = "/" then "root"
  else if mount = "/boot" then "EFI"
  else if mount = "swap" then "swap"
  else replaceSlashDash mount

/-- Label derivation as the code actually performs it and as the amended
claim words it: slash maps to root, /boot to EFI, swap to swap, and any
other mount point to the path with leading slashes removed and the
remaining slashes replaced by hyphens. -/
def amendedLabelOfMount (mount : String) : String :=
  if mount = "/" then "root"
  else if mount = "/boot" then "EFI"
  else if mount = "swap" then "swap"
  else replaceSlashDash (trimStartSlashes mount)

-- ---------------------------------------------------------------------------
-- Helper lemmas
-- ---------------------------------------------------------------------------

/-- The first character of an appended string is the first character of a
nonempty left part. -/
theorem firstChar_append_of_data (s t : String) (c : Char) (cs : List Char)
    (h : s.data = c :: cs) : firstChar (s ++ t) = some c := by
  show ((s ++ t).data).head? = some c
  have hd : (s ++ t).data = s.data ++ t.data := rfl
  rw [hd, h]
  rfl

/-- The first character of a double append is the first character of a
nonempty leftmost part. -/
theorem firstChar_double_append (pre mid post : String) (c : Char) (cs : List Char)
    (h : pre.data = c :: cs) : firstChar (pre ++ mid ++ post) = some c := by
  show ((pre ++ mid ++ post).data).head? = some c
  have hd : (pre ++ mid ++ post).data = pre.data ++ (mid.data ++ post.data) := by
    show (pre.data ++ mid.data) ++ post.data = pre.data ++ (mid.data ++ post.data)
    exact List.append_assoc _ _ _
  rw [hd, h]
  rfl

/-- confirm_swap_size written as one equation over the parsed input. -/
theorem confirm_swap_size_eq (a : App) :
    confirm_swap_size a =
      match (if rustTrim a.swap_size_input = "" then some 0 else parseU64 (rustTrim a.swap_size_input)) with
      | none => { a with status_message := some "Invalid swap size. Enter a whole number in GiB (e.g. 4) or leave empty for no swap." }
      | some swap_gb =>
        let plan : List PartitionPlan :=
          [{ label := "EFI", mount_point := "/boot", size_mb := some 512, fs_type := .Fat32 }]
          ++ (if swap_gb > 0 then [{ label := "swap", mount_point := "swap", size_mb := some ((swap_gb * 1024) % U64MOD), fs_type := .Swap }] else [])
          ++ [{ label := "root", mount_point := "/", size_mb := none, fs_type := .Ext4 }]
        { a with partitions := plan, step := .Confirm } := rfl

/-- The code's username guard (all characters in the allowed set, and the
first character lowercase or underscore) is equivalent to the claim's
phrasing (first character lowercase or underscore, every remaining
character in the allowed set). -/
theorem username_guard_iff (l : List Char) :
    ((l.all fun c => is_ascii_lowercase c || is_ascii_digit c || c = '-' || c = '_') = true ∧
     ((l.head?.map fun c => is_ascii_lowercase c || c = '_').getD false) = true) ↔
    (∃ c cs, l = c :: cs ∧ (is_ascii_lowercase c = true ∨ c = '_') ∧
       ∀ d ∈ cs, (is_ascii_lowercase d = true ∨ is_ascii_digit d = true ∨ d = '-' ∨ d = '_')) := by
  constructor
  · rintro ⟨hall, hfirst⟩
    cases l with
    | nil => simp at hfirst
    | cons c cs =>
      refine ⟨c, cs, rfl, ?_, ?_⟩
      · simpa [Bool.or_eq_true, decide_eq_true_eq] using hfirst
      · intro d hd
        have hx := (List.all_eq_true.mp hall) d (List.mem_cons_of_mem c hd)
        simpa [Bool.or_eq_true, decide_eq_true_eq, or_assoc] using hx
  · rintro ⟨c, cs, rfl, hfirst, hrest⟩
    constructor
    · rw [List.all_cons]
      have hc4 : (is_ascii_lowercase c || is_ascii_digit c || decide (c = '-') || decide (c = '_')) = true := by
        rcases hfirst with h | h
        · simp [h]
        · simp [h]
      rw [hc4]
      simp only [Bool.true_and, List.all_eq_true]
      intro d hd
      have hx := hrest d hd
      simpa [Bool.or_eq_true, decide_eq_true_eq, or_assoc] using hx
    · simp only [List.head?_cons, Option.map, Option.getD]
      rcases hfirst with h | h
      · simp [h]
      · simp [h]

/-- processCloneLine never changes the done flag or the error field. -/
theorem processCloneLine_preserves (s : CloneState) (raw : String) :
    (processCloneLine s raw).done = s.done ∧ (processCloneLine s raw).error = s.error := by
  simp only [processCloneLine]
  split
  · exact ⟨rfl, rfl⟩
  · split <;> exact ⟨rfl, rfl⟩

/-- The clone stderr parser never changes the done flag or the error
field: completion and failure are decided only by the process exit. -/
theorem processCloneStream_preserves (bytes : List Char) :
    ∀ (s : CloneState) (buf : String),
      (processCloneStream s buf bytes).1.done = s.done ∧
      (processCloneStream s buf bytes).1.error = s.error := by
  induction bytes with
  | nil => intro s buf; exact ⟨rfl, rfl⟩
  | cons b rest ih =>
    intro s buf
    simp only [processCloneStream]
    split
    · constructor
      · rw [(ih (processCloneLine s buf) "").1, (processCloneLine_preserves s buf).1]
      · rw [(ih (processCloneLine s buf) "").2, (processCloneLine_preserves s buf).2]
    · exact ih s (buf.push b)

/-- The end-of-stream flush never changes the done flag or the error
field. -/
theorem flushCloneBuf_preserves (s : CloneState) (buf : String) :
    (flushCloneBuf s buf).done = s.done ∧ (flushCloneBuf s buf).error = s.error := by
  simp only [flushCloneBuf]
  split <;> exact ⟨rfl, rfl⟩

/-- Processing a concatenated byte stream equals processing the two parts
in sequence, carrying the partial line buffer across. -/
theorem processCloneStream_append (xs : List Char) :
    ∀ (s : CloneState) (buf : String) (ys : List Char),
      processCloneStream s buf (xs ++ ys) =
        processCloneStream (processCloneStream s buf xs).1 (processCloneStream s buf xs).2 ys := by
  induction xs with
  | nil => intro s buf ys; rfl
  | cons b rest ih =>
    intro s buf ys
    simp only [List.cons_append, processCloneStream]
    split
    · exact ih (processCloneLine s buf) "" ys
    · exact ih s (buf.push b) ys

-- ---------------------------------------------------------------------------
-- Claim theorems
-- ---------------------------------------------------------------------------

/-- Claim C3: from every wizard step reachable only after a list-append
commit (the add-another-user prompt after a user was appended, the two
per-user selection screens, and the add-another-partition prompt after a
partition was appended), go_back returns false and leaves the whole
application state - in particular the users list and the partitions list -
unchanged. -/
theorem go_back_refuses_after_list_append (a : App)
    (h : a.step = Step.AddAnotherUser ∨ a.step = Step.SelectHmModules ∨
         a.step = Step.SelectUserPackages ∨ a.step = Step.CustomPartitionAnother) :
    go_back a = (false, a) := by
  rcases h with h | h | h | h <;> simp [go_back, h]

/-- Witness for go_back_refuses_after_list_append at a concrete state. -/
theorem go_back_refuses_after_list_append_witness :
    go_back { defaultApp with step := Step.AddAnotherUser } =
      (false, { defaultApp with step := Step.AddAnotherUser }) :=
  go_back_refuses_after_list_append _ (Or.inl rfl)

/-- Claim C8: when the foreground sync finds the shared mutex poisoned, it
sets the wizard-visible error to a fixed crashed-worker message - not the
poisoned payload - for both the clone-phase and the install-phase sync; the
result is independent of the poisoned inner state. -/
theorem sync_poisoned_reports_crash (a : App) (pc : CloneState) (pi : InstallState) :
    (sync_clone_state (some (.error pc)) a).clone_error = some "Clone thread crashed unexpectedly" ∧
    (sync_clone_state (some (.error pc)) a).clone_done = true ∧
    (sync_install_state (some (.error pi)) a).install_error = some "Installation thread crashed unexpectedly" ∧
    (∀ pc2 : CloneState, sync_clone_state (some (.error pc2)) a = sync_clone_state (some (.error pc)) a) ∧
    (∀ pi2 : InstallState, sync_install_state (some (.error pi2)) a = sync_install_state (some (.error pi)) a) := by
  refine ⟨?_, ?_, ?_, ?_, ?_⟩ <;>
    simp only [sync_clone_state, sync_install_state] <;>
    (try intro x) <;> (try split) <;> simp

/-- Claim C9 counterexample: committing the custom mount point /home/user
yields the label home-user, while the claim's rule - the path with slashes
replaced by hyphens - yields -home-user. -/
theorem custom_label_counterexample :
    ((confirm_custom_fs { defaultApp with part_mount_input := "/home/user", step := Step.CustomPartitionFs }).partitions.map PartitionPlan.label = ["home-user"]) ∧
    specLabelOfMount "/home/user" = "-home-user" ∧
    ("home-user" : String) ≠ "-home-user" := by decide

/-- Claim C9 (amended): committing a custom-mode partition entry derives
its label purely from the trimmed mount point: slash yields root, /boot
yields EFI, swap yields swap, and any other mount point yields the path
with leading slashes removed and the remaining slashes replaced by
hyphens. -/
theorem custom_label_derivation (a : App)
    (hsz : rustTrim a.part_size_input = "" ∨
           ∃ v, parseU64 (rustTrim a.part_size_input) = some v ∧ 0 < v) :
    ∃ p : PartitionPlan,
      (confirm_custom_fs a).partitions = a.partitions ++ [p] ∧
      p.mount_point = rustTrim a.part_mount_input ∧
      p.label = amendedLabelOfMount (rustTrim a.part_mount_input) := by
  rcases hsz with h | ⟨v, hv, hvpos⟩
  · refine ⟨{ label := amendedLabelOfMount (rustTrim a.part_mount_input),
              mount_point := rustTrim a.part_mount_input,
              size_mb := none,
              fs_type := FsType.all.getD a.part_fs_cursor .Fat32 }, ?_, rfl, rfl⟩
    simp [confirm_custom_fs, h, amendedLabelOfMount]
  · have hne : ¬ rustTrim a.part_size_input = "" := by
      intro he
      rw [he] at hv
      simp [parseU64, parseDigits] at hv
    refine ⟨{ label := amendedLabelOfMount (rustTrim a.part_mount_input),
              mount_point := rustTrim a.part_mount_input,
              size_mb := some ((v * 1024) % U64MOD),
              fs_type := FsType.all.getD a.part_fs_cursor .Fat32 }, ?_, rfl, rfl⟩
    simp [confirm_custom_fs, hne, hv, hvpos, amendedLabelOfMount]

/-- Witness for custom_label_derivation at a concrete state. -/
theorem custom_label_derivation_witness :
    ∃ p : PartitionPlan,
      (confirm_custom_fs { defaultApp with part_mount_input := "/srv/data" }).partitions =
        ({ defaultApp with part_mount_input := "/srv/data" } : App).partitions ++ [p] ∧
      p.mount_point = rustTrim ({ defaultApp with part_mount_input := "/srv/data" } : App).part_mount_input ∧
      p.label = amendedLabelOfMount (rustTrim ({ defaultApp with part_mount_input := "/srv/data" } : App).part_mount_input) :=
  custom_label_derivation { defaultApp with part_mount_input := "/srv/data" } (Or.inl (by decide))

/-- Claim C5: install confirmation with no root mount point in the plan
only sets a status message - the step stays Confirm and the worker is not
started - and the worker can only have been started when some entry has
mount point slash. -/
theorem confirm_install_requires_root :
    (∀ a : App, a.step = Step.Confirm → a.confirm_cursor = 0 →
      (∀ p ∈ a.partitions, p.mount_point ≠ "/") →
      confirm_install a = { a with status_message := some "No root (/) partition defined. Please go back and add one." } ∧
      (confirm_install a).step = Step.Confirm ∧
      (confirm_install a).install_started = a.install_started) ∧
    (∀ a : App, (confirm_install a).install_started = true →
      a.install_started = true ∨ ∃ p ∈ a.partitions, p.mount_point = "/") := by
  constructor
  · intro a hstep hc hroot
    have hany : (a.partitions.any fun p => p.mount_point = "/") = false := by
      simp only [List.any_eq_false, decide_eq_true_eq]
      exact hroot
    refine ⟨?_, ?_, ?_⟩ <;> simp [confirm_install, hc, hany, hstep]
  · intro a hstart
    by_cases hc : a.confirm_cursor = 0
    · by_cases hany : (a.partitions.any fun p => p.mount_point = "/") = true
      · right
        simpa only [List.any_eq_true, decide_eq_true_eq] using hany
      · left
        simp [confirm_install, hc, hany] at hstart
        exact hstart
    · left
      simp [confirm_install, hc] at hstart
      exact hstart

/-- Witness for confirm_install_requires_root at a concrete state. -/
theorem confirm_install_requires_root_witness :
    confirm_install { defaultApp with step := Step.Confirm } =
      { { defaultApp with step := Step.Confirm } with status_message := some "No root (/) partition defined. Please go back and add one." } :=
  (confirm_install_requires_root.1 { defaultApp with step := Step.Confirm } rfl rfl
    (by intro p hp; simp [defaultApp] at hp)).1

/-- Claim C10: choosing custom mode clears the accumulated partition list;
confirming the swap size is idempotent; and an accepted swap-size
confirmation builds a plan that is independent of whatever partitions were
accumulated before, so the final plan never mixes entries from an earlier
pass. -/
theorem partition_plan_no_leftovers :
    (∀ a : App, a.partition_mode_cursor ≠ 0 → (confirm_partition_mode a).partitions = []) ∧
    (∀ a : App, confirm_swap_size (confirm_swap_size a) = confirm_swap_size a) ∧
    (∀ (a : App) (ps : List PartitionPlan),
      (if rustTrim a.swap_size_input = "" then some 0 else parseU64 (rustTrim a.swap_size_input)).isSome →
      (confirm_swap_size { a with partitions := ps }).partitions = (confirm_swap_size a).partitions) := by
  refine ⟨?_, ?_, ?_⟩
  · intro a h
    simp [confirm_partition_mode, h]
  · intro a
    cases hopt : (if rustTrim a.swap_size_input = "" then some 0 else parseU64 (rustTrim a.swap_size_input)) with
    | none =>
      have h1 := confirm_swap_size_eq a
      rw [hopt] at h1
      rw [h1]
      have h2 := confirm_swap_size_eq { a with status_message := some "Invalid swap size. Enter a whole number in GiB (e.g. 4) or leave empty for no swap." }
      simp only at h2
      rw [hopt] at h2
      rw [h2]
    | some s =>
      have h1 := confirm_swap_size_eq a
      rw [hopt] at h1
      rw [h1]
      have h2 := confirm_swap_size_eq { a with partitions := [{ label := "EFI", mount_point := "/boot", size_mb := some 512, fs_type := .Fat32 }] ++ (if s > 0 then [{ label := "swap", mount_point := "swap", size_mb := some ((s * 1024) % U64MOD), fs_type := .Swap }] else []) ++ [{ label := "root", mount_point := "/", size_mb := none, fs_type := .Ext4 }], step := .Confirm }
      simp only at h2
      rw [hopt] at h2
      rw [h2]
  · intro a ps hacc
    cases hopt : (if rustTrim a.swap_size_input = "" then some 0 else parseU64 (rustTrim a.swap_size_input)) with
    | none =>
      rw [hopt] at hacc
      simp at hacc
    | some s =>
      have h1 := confirm_swap_size_eq { a with partitions := ps }
      have h2 := confirm_swap_size_eq a
      simp only at h1
      rw [hopt] at h1
      rw [hopt] at h2
      rw [h1, h2]

/-- Witness for partition_plan_no_leftovers at concrete states. -/
theorem partition_plan_no_leftovers_witness :
    ((confirm_partition_mode { defaultApp with partition_mode_cursor := 1 }).partitions = []) ∧
    ((confirm_swap_size { defaultApp with partitions := [{ label := "x", mount_point := "/x", size_mb := none, fs_type := .Ext4 }] }).partitions = (confirm_swap_size defaultApp).partitions) :=
  ⟨partition_plan_no_leftovers.1 { defaultApp with partition_mode_cursor := 1 } (by decide),
   partition_plan_no_leftovers.2.2 defaultApp [{ label := "x", mount_point := "/x", size_mb := none, fs_type := .Ext4 }] (by decide)⟩


/-- Claim C6: a username is accepted (the users list grows by one) iff it
is non-empty after trimming, its first character is a lowercase ASCII
letter or underscore, every remaining character is a lowercase ASCII
letter, ASCII digit, hyphen, or underscore, and it differs from every
already-accepted username; each rejection changes nothing but the status
message (so the step is unchanged and the input field is left uncleared,
in particular in the duplicate case). -/
theorem confirm_username_spec (f : String → String → Bool) (a : App) :
    ((confirm_username f a).users.length = a.users.length + 1 ↔
      (rustTrim a.current_username ≠ "" ∧
       (∃ c cs, (rustTrim a.current_username).data = c :: cs ∧
          (is_ascii_lowercase c = true ∨ c = '_') ∧
          ∀ d ∈ cs, (is_ascii_lowercase d = true ∨ is_ascii_digit d = true ∨ d = '-' ∨ d = '_')) ∧
       ∀ u ∈ a.users, u.username ≠ rustTrim a.current_username)) ∧
    (rustTrim a.current_username = "" →
      confirm_username f a = { a with status_message := some "Username cannot be empty" }) ∧
    (rustTrim a.current_username ≠ "" →
      ¬(∃ c cs, (rustTrim a.current_username).data = c :: cs ∧
          (is_ascii_lowercase c = true ∨ c = '_') ∧
          ∀ d ∈ cs, (is_ascii_lowercase d = true ∨ is_ascii_digit d = true ∨ d = '-' ∨ d = '_')) →
      confirm_username f a = { a with status_message := some "Username must start with a lowercase letter or underscore" }) ∧
    ((∃ u ∈ a.users, u.username = rustTrim a.current_username) →
      (∃ c cs, (rustTrim a.current_username).data = c :: cs ∧
          (is_ascii_lowercase c = true ∨ c = '_') ∧
          ∀ d ∈ cs, (is_ascii_lowercase d = true ∨ is_ascii_digit d = true ∨ d = '-' ∨ d = '_')) →
      confirm_username f a = { a with status_message := some "User already exists" }) := by
  by_cases hemp : rustTrim a.current_username = ""
  · refine ⟨?_, ?_, ?_, ?_⟩
    · rw [hemp]
      simp [confirm_username, hemp]
    · intro _
      simp [confirm_username, hemp]
    · intro hne _
      exact absurd hemp hne
    · intro _ hfmt
      rcases hfmt with ⟨c, cs, hdata, _, _⟩
      rw [hemp] at hdata
      simp at hdata
  · by_cases hfmt : ((rustTrim a.current_username).data.all fun c => is_ascii_lowercase c || is_ascii_digit c || c = '-' || c = '_') = true ∧
        (((rustTrim a.current_username).data.head?.map fun c => is_ascii_lowercase c || c = '_').getD false) = true
    · by_cases hdup : (a.users.any fun u => u.username = rustTrim a.current_username) = true
      · have hres : confirm_username f a = { a with status_message := some "User already exists" } := by
          simp only [confirm_username]
          rw [if_neg hemp]
          rw [if_neg (by simp [hfmt.1, hfmt.2])]
          rw [if_pos (by simpa using hdup)]
        refine ⟨?_, fun h => absurd h hemp, ?_, fun _ _ => hres⟩
        · rw [hres]
          simp only [List.any_eq_true, decide_eq_true_eq] at hdup
          rcases hdup with ⟨u, hu, hequ⟩
          constructor
          · intro hlen
            exact absurd hlen (by simp)
          · rintro ⟨_, _, hall⟩
            exact absurd hequ (hall u hu)
        · intro _ hnf
          exact absurd ((username_guard_iff _).mp hfmt) hnf
      · have hres : (confirm_username f a).users = a.users ++
            [{ username := rustTrim a.current_username, password := "", hm_modules := [],
               package_modules := [], needs_hm_selection := !f a.host_name (rustTrim a.current_username) }] := by
          simp only [confirm_username]
          rw [if_neg hemp]
          rw [if_neg (by simp [hfmt.1, hfmt.2])]
          rw [if_neg (by simpa using hdup)]
        refine ⟨?_, fun h => absurd h hemp, ?_, ?_⟩
        · rw [hres]
          simp only [List.length_append, List.length_cons, List.length_nil]
          constructor
          · intro _
            refine ⟨hemp, (username_guard_iff _).mp hfmt, ?_⟩
            intro u hu hequ
            refine absurd ?_ hdup
            simp only [List.any_eq_true, decide_eq_true_eq]
            exact ⟨u, hu, hequ⟩
          · intro _
            trivial
        · intro _ hnf
          exact absurd ((username_guard_iff _).mp hfmt) hnf
        · rintro ⟨u, hu, hequ⟩ _
          refine absurd ?_ hdup
          simp only [List.any_eq_true, decide_eq_true_eq]
          exact ⟨u, hu, hequ⟩
    · have hfmt2 : ¬ (∃ c cs, (rustTrim a.current_username).data = c :: cs ∧
          (is_ascii_lowercase c = true ∨ c = '_') ∧
          ∀ d ∈ cs, (is_ascii_lowercase d = true ∨ is_ascii_digit d = true ∨ d = '-' ∨ d = '_')) :=
        fun h => hfmt ((username_guard_iff _).mpr h)
      have hres : confirm_username f a = { a with status_message := some "Username must start with a lowercase letter or underscore" } := by
        simp only [confirm_username]
        rw [if_neg hemp]
        rw [if_pos ?_]
        rcases Decidable.not_and_iff_or_not.mp hfmt with h | h
        · simp [Bool.not_eq_true] at h
          simp [h]
        · simp [Bool.not_eq_true] at h
          simp [h]
      refine ⟨?_, fun h => absurd h hemp, fun _ _ => hres, fun _ h => absurd h hfmt2⟩
      rw [hres]
      constructor
      · intro hlen
        exact absurd hlen (by simp)
      · rintro ⟨_, h, _⟩
        exact absurd h hfmt2

/-- Witness for confirm_username_spec at a concrete state. -/
theorem confirm_username_spec_witness :
    confirm_username (fun _ _ => false) { defaultApp with current_username := "9bad" } =
      { { defaultApp with current_username := "9bad" } with status_message := some "Username must start with a lowercase letter or underscore" } :=
  (confirm_username_spec (fun _ _ => false) { defaultApp with current_username := "9bad" }).2.2.1
    (by decide)
    (by
      rintro ⟨c, cs, hdata, hfirst, _⟩
      have hc : c = '9' := by
        have hx : (rustTrim ({ defaultApp with current_username := "9bad" } : App).current_username).data = ['9', 'b', 'a', 'd'] := by decide
        rw [hx] at hdata
        injection hdata with h1 h2
        exact h1.symm
      rw [hc] at hfirst
      rcases hfirst with h | h
      · exact absurd h (by decide)
      · exact absurd h (by decide))

/-- Claim C4 counterexample: the swap size input 18014398509481984 (2^54)
is accepted by full-disk mode, and the resulting plan has three entries,
yet the middle entry is a swap partition of 0 MiB rather than s*1024 MiB,
because the u64 multiplication wraps around 2^64. -/
theorem full_disk_plan_counterexample :
    parseU64 (rustTrim ({ defaultApp with swap_size_input := "18014398509481984" } : App).swap_size_input) = some 18014398509481984 ∧
    (confirm_swap_size { defaultApp with swap_size_input := "18014398509481984" }).partitions.length = 3 ∧
    ((confirm_swap_size { defaultApp with swap_size_input := "18014398509481984" }).partitions.map PartitionPlan.size_mb ≠
      [some 512, some (18014398509481984 * 1024), none]) := by decide

/-- Claim C4 (amended): for every accepted swap size s, the full-disk plan
is exactly the 512 MiB FAT32 EFI entry mounted at /boot followed by a root
entry with mount point slash and absent size when s = 0 (or the input is
empty), and with a middle swap entry of (s * 1024) MiB reduced modulo 2^64
- equal to s * 1024 whenever s < 2^54 - when s > 0. -/
theorem full_disk_plan_spec (a : App) (s : Nat)
    (h : (if rustTrim a.swap_size_input = "" then some 0 else parseU64 (rustTrim a.swap_size_input)) = some s) :
    (confirm_swap_size a).step = Step.Confirm ∧
    (confirm_swap_size a).partitions =
      (if s = 0 then
        [{ label := "EFI", mount_point := "/boot", size_mb := some 512, fs_type := .Fat32 },
         { label := "root", mount_point := "/", size_mb := none, fs_type := .Ext4 }]
      else
        [{ label := "EFI", mount_point := "/boot", size_mb := some 512, fs_type := .Fat32 },
         { label := "swap", mount_point := "swap", size_mb := some ((s * 1024) % U64MOD), fs_type := .Swap },
         { label := "root", mount_point := "/", size_mb := none, fs_type := .Ext4 }]) := by
  have h1 := confirm_swap_size_eq a
  rw [h] at h1
  rw [h1]
  refine ⟨rfl, ?_⟩
  by_cases hs : s = 0
  · subst hs
    simp
  · have hpos : s > 0 := Nat.pos_of_ne_zero hs
    simp [hs, hpos]

/-- Witness for full_disk_plan_spec at the default state (input 4 GiB). -/
theorem full_disk_plan_spec_witness :
    (confirm_swap_size defaultApp).step = Step.Confirm :=
  (full_disk_plan_spec defaultApp 4 (by decide)).1

/-- Claim C2: feeding the clone parser the 42 percent line then the 100
percent line makes the percent field read 42 and then 100; the parser
itself never sets done, done becomes true (with percent forced to 100)
exactly when the git process exits successfully, and a nonzero exit or a
spawn failure sets the terminal error with done left false. -/
theorem clone_progress_spec :
    ((processCloneStream initCloneState "" ("Receiving objects:  42% (123/456)" ++ "\n").data).1.percent = 42) ∧
    ((processCloneStream initCloneState "" ("Receiving objects:  42% (123/456)" ++ "\n" ++ "Receiving objects: 100% (456/456), done." ++ "\n").data).1.percent = 100) ∧
    (∀ (s : CloneState) (buf : String) (bytes : List Char),
      (processCloneStream s buf bytes).1.done = s.done) ∧
    (∀ (url : String) (stream : List Char) (st : ExitStatus), st.success = true →
      (clone_repo url (.run stream (.ok st)) initCloneState).done = true ∧
      (clone_repo url (.run stream (.ok st)) initCloneState).percent = 100) ∧
    (∀ (url : String) (stream : List Char) (st : ExitStatus), st.success = false →
      (clone_repo url (.run stream (.ok st)) initCloneState).error =
        some ("git clone failed with exit code " ++ formatExitCode st.code) ∧
      (clone_repo url (.run stream (.ok st)) initCloneState).done = false) ∧
    (∀ (url e : String),
      (clone_repo url (.spawnFail e) initCloneState).error = some ("Failed to run git clone: " ++ e) ∧
      (clone_repo url (.spawnFail e) initCloneState).done = false) := by
  refine ⟨by decide, by decide, ?_, ?_, ?_, ?_⟩
  · intro s buf bytes
    exact (processCloneStream_preserves bytes s buf).1
  · intro url stream st hsucc
    simp only [clone_repo]
    rw [hsucc]
    exact ⟨rfl, rfl⟩
  · intro url stream st hsucc
    simp only [clone_repo]
    rw [hsucc]
    refine ⟨rfl, ?_⟩
    show (flushCloneBuf _ _).done = false
    rw [(flushCloneBuf_preserves _ _).1, (processCloneStream_preserves _ _ _).1]
    rfl
  · intro url e
    exact ⟨rfl, rfl⟩

/-- Witness for clone_progress_spec at concrete process outcomes. -/
theorem clone_progress_spec_witness :
    ((clone_repo "u" (.run [] (.ok { success := true, code := some 0 })) initCloneState).done = true) ∧
    ((clone_repo "u" (.run [] (.ok { success := false, code := some 1 })) initCloneState).error =
      some ("git clone failed with exit code " ++ formatExitCode (some 1))) :=
  ⟨(clone_progress_spec.2.2.2.1 "u" [] { success := true, code := some 0 } rfl).1,
   (clone_progress_spec.2.2.2.2.1 "u" [] { success := false, code := some 1 } rfl).1⟩


/-- Claim C1: when stage 3 of the install pipeline (hardware configuration
generation) fails while stages 1 and 2 succeed, the shared state ends with
progress 3, the error set, done still false, and no stage after stage 3 has
appended its start message to the log; the worker runs no further stage. -/
theorem install_stage3_failure (env : InstallEnv) (inp : InstallInputs) (e : String)
    (h1 : env.partition_disk = .ok ()) (h2 : env.format_and_mount = .ok ())
    (h3 : env.generate_hardware_config = .error e) :
    (run_install_worker env inp).progress = 3 ∧
    (run_install_worker env inp).error = some ("Hardware config generation failed: " ++ e) ∧
    (run_install_worker env inp).done = false ∧
    ∀ m ∈ laterStageStartMessages inp, m ∉ (run_install_worker env inp).log := by
  have hrun : run_install_worker env inp =
      { log := ["Partitioning " ++ inp.disk_path ++ "...", "Formatting and mounting partitions...", "Generating hardware configuration..."] ++ (rustLines ("Hardware config generation failed: " ++ e)).map (fun l => "ERROR: " ++ l),
        progress := 3,
        total := 9 + inp.pre_hooks.length + inp.post_hooks.length,
        error := some ("Hardware config generation failed: " ++ e),
        done := false } := by
    simp only [run_install_worker, h1, h2, h3, ilog, iprog, ilogError, ifail]
    simp
  rw [hrun]
  refine ⟨rfl, rfl, rfl, ?_⟩
  intro m hm hmem
  have hmf : firstChar m = some 'W' ∨ firstChar m = some 'S' ∨ firstChar m = some 'R' ∨
      firstChar m = some 'C' ∨ firstChar m = some 'I' := by
    simp only [laterStageStartMessages, List.mem_append, List.mem_cons, List.not_mem_nil,
      or_false, List.mem_map] at hm
    rcases hm with (((hx | hx | hx | hx | hx | hx) | ⟨u, hu, hx⟩) | ⟨hh, hhp, hx⟩) | ⟨hh, hhp, hx⟩
    · subst hx; exact Or.inl rfl
    · subst hx; exact Or.inl rfl
    · subst hx; exact Or.inr (Or.inl rfl)
    · subst hx; exact Or.inr (Or.inr (Or.inl rfl))
    · subst hx; exact Or.inr (Or.inr (Or.inr (Or.inl rfl)))
    · subst hx; exact Or.inr (Or.inr (Or.inr (Or.inr rfl)))
    · rw [← hx]; exact Or.inl (firstChar_double_append _ _ _ 'W' _ rfl)
    · rw [← hx]; exact Or.inr (Or.inr (Or.inl (firstChar_double_append _ _ _ 'R' _ rfl)))
    · rw [← hx]; exact Or.inr (Or.inr (Or.inl (firstChar_double_append _ _ _ 'R' _ rfl)))
  have hlogf : firstChar m = some 'P' ∨ firstChar m = some 'F' ∨ firstChar m = some 'G' ∨
      firstChar m = some 'E' := by
    simp only [List.mem_append, List.mem_cons, List.not_mem_nil, or_false, List.mem_map] at hmem
    rcases hmem with (hx | hx | hx) | ⟨l, hl, hx⟩
    · subst hx; exact Or.inl (firstChar_double_append _ _ _ 'P' _ rfl)
    · subst hx; exact Or.inr (Or.inl rfl)
    · subst hx; exact Or.inr (Or.inr (Or.inl rfl))
    · rw [← hx]; exact Or.inr (Or.inr (Or.inr (firstChar_append_of_data _ _ 'E' _ rfl)))
  rcases hmf with h | h | h | h | h <;> rcases hlogf with h2 | h2 | h2 | h2 <;>
    (rw [h] at h2; exact absurd h2 (by decide))

/-- Witness for install_stage3_failure at a concrete environment. -/
theorem install_stage3_failure_witness :
    (run_install_worker
      { partition_disk := .ok (), format_and_mount := .ok (),
        generate_hardware_config := .error "boom", write_hardware_config := .ok (),
        write_host_config := .ok (), write_user_config := fun _ => .ok (),
        git_add_all := .ok (), run_hook := fun _ => .ok "",
        nixos_install := .spawnFail "never reached", copy_repo_to_target := .ok () }
      { disk_path := "/dev/sda", partitions := [], base_path := "/tmp/nixos-dotfiles",
        host_name := "host", is_custom := true, users := [], pre_hooks := [],
        post_hooks := [] }).progress = 3 :=
  (install_stage3_failure _ _ "boom" rfl rfl rfl).1

/-- A user index beyond the list never needs HM selection. -/
theorem needsAt_ge (users : List UserEntry) (k : Nat) (h : users.length ≤ k) :
    needsAt users k = false := by
  simp only [needsAt]
  rw [List.get?_eq_none.mpr h]

/-- needsAt agrees with the flag of the indexed user in range. -/
theorem needsAt_lt (users : List UserEntry) (k : Nat) (h : k < users.length) :
    needsAt users k = (users.get ⟨k, h⟩).needs_hm_selection := by
  simp only [needsAt]
  rw [List.get?_eq_get h]

/-- No needy users at or beyond the end of the list. -/
theorem needyFrom_ge (users : List UserEntry) (i : Nat) (h : users.length ≤ i) :
    needyFrom users i = [] := by
  rw [needyFrom, dif_neg (Nat.not_lt.mpr h)]

/-- Unfolding needyFrom at an in-range index whose user needs selection. -/
theorem needyFrom_lt_true (users : List UserEntry) (i : Nat) (h : i < users.length)
    (hf : needsAt users i = true) :
    needyFrom users i = i :: needyFrom users (i + 1) := by
  rw [needyFrom, dif_pos h, if_pos (by rw [← needsAt_lt users i h]; exact hf)]

/-- Unfolding needyFrom at an in-range index whose user does not need selection. -/
theorem needyFrom_lt_false (users : List UserEntry) (i : Nat) (h : i < users.length)
    (hf : needsAt users i = false) :
    needyFrom users i = needyFrom users (i + 1) := by
  rw [needyFrom, dif_pos h, if_neg (by rw [← needsAt_lt users i h]; simp [hf])]

/-- The head of the needy-index list is the least needy index at or beyond the start, and the tail restarts just after it. -/
theorem needyFrom_cons (users : List UserEntry) (i : Nat) :
    ∀ j rest, needyFrom users i = j :: rest →
      i ≤ j ∧ j < users.length ∧ needsAt users j = true ∧ rest = needyFrom users (j + 1) := by
  induction i using needyFrom.induct users with
  | case1 i h hf ih =>
    intro j rest hx
    have hfa : needsAt users i = true := by rw [needsAt_lt users i h]; exact hf
    rw [needyFrom_lt_true users i h hfa] at hx
    injection hx with e1 e2
    subst e1
    exact ⟨Nat.le_refl i, h, hfa, e2.symm⟩
  | case2 i h hf ih =>
    intro j rest hx
    have hfa : needsAt users i = false := by rw [needsAt_lt users i h]; simpa using hf
    rw [needyFrom_lt_false users i h hfa] at hx
    obtain ⟨h1, h2, h3, h4⟩ := ih j rest hx
    exact ⟨Nat.le_trans (Nat.le_succ i) h1, h2, h3, h4⟩
  | case3 i h =>
    intro j rest hx
    rw [needyFrom_ge users i (Nat.not_lt.mp h)] at hx
    cases hx

/-- Each index occurs in the needy-index list exactly once when it is at or beyond the start and its user needs selection, and never otherwise. -/
theorem needyFrom_count (users : List UserEntry) (k : Nat) :
    ∀ i, (needyFrom users i).count k = if i ≤ k ∧ needsAt users k = true then 1 else 0 := by
  intro i
  induction i using needyFrom.induct users with
  | case1 i h hf ih =>
    have hfa : needsAt users i = true := by rw [needsAt_lt users i h]; exact hf
    rw [needyFrom_lt_true users i h hfa, List.count_cons, ih]
    by_cases hk : k = i
    · subst hk
      simp [hfa]
    · simp [Ne.symm hk]
      have : (i + 1 ≤ k ∧ needsAt users k = true) ↔ (i ≤ k ∧ needsAt users k = true) := by
        constructor
        · rintro ⟨h1, h2⟩; exact ⟨by omega, h2⟩
        · rintro ⟨h1, h2⟩; exact ⟨by omega, h2⟩
      rw [if_congr this rfl rfl]
  | case2 i h hf ih =>
    have hfa : needsAt users i = false := by rw [needsAt_lt users i h]; simpa using hf
    rw [needyFrom_lt_false users i h hfa, ih]
    by_cases hk : k = i
    · subst hk
      simp [hfa]
    · have : (i + 1 ≤ k ∧ needsAt users k = true) ↔ (i ≤ k ∧ needsAt users k = true) := by
        constructor
        · rintro ⟨h1, h2⟩; exact ⟨by omega, h2⟩
        · rintro ⟨h1, h2⟩; exact ⟨by omega, h2⟩
      rw [if_congr this rfl rfl]
  | case3 i h =>
    rw [needyFrom_ge users i (Nat.not_lt.mp h)]
    have hy : needsAt users k = true → ¬ i ≤ k := by
      intro hkk hik
      have : users.length ≤ k := by omega
      rw [needsAt_ge users k this] at hkk
      cases hkk
    have hn : ¬ (i ≤ k ∧ needsAt users k = true) := fun hp => hy hp.2 hp.1
    rw [if_neg hn]
    exact List.count_nil k


/-- Updating a user entry without changing its selection flag preserves needsAt everywhere. -/
theorem needsAt_set_preserve (users : List UserEntry) (i : Nat) (u2 : UserEntry) (k : Nat)
    (hf : ∀ u1, users.get? i = some u1 → u2.needs_hm_selection = u1.needs_hm_selection) :
    needsAt (users.set i u2) k = needsAt users k := by
  by_cases hk : i = k
  · subst hk
    simp only [needsAt]
    rw [List.get?_set_eq]
    cases hg : users.get? i with
    | none => rfl
    | some u1 => simpa using hf u1 hg
  · simp only [needsAt]
    rw [List.get?_set_ne _ users hk]

/-- needyFrom only depends on the length and the selection flags. -/
theorem needyFrom_congr (us vs : List UserEntry) (hlen : us.length = vs.length)
    (h : ∀ k, needsAt us k = needsAt vs k) : ∀ i, needyFrom us i = needyFrom vs i := by
  intro i
  induction i using needyFrom.induct us with
  | case1 i hi hf ih =>
    have hi2 : i < vs.length := hlen ▸ hi
    have hfa : needsAt us i = true := by rw [needsAt_lt us i hi]; exact hf
    rw [needyFrom_lt_true us i hi hfa, needyFrom_lt_true vs i hi2 (by rw [← h i]; exact hfa), ih]
  | case2 i hi hf ih =>
    have hi2 : i < vs.length := hlen ▸ hi
    have hfa : needsAt us i = false := by rw [needsAt_lt us i hi]; simpa using hf
    rw [needyFrom_lt_false us i hi hfa, needyFrom_lt_false vs i hi2 (by rw [← h i]; exact hfa), ih]
  | case3 i hi =>
    rw [needyFrom_ge us i (Nat.not_lt.mp hi), needyFrom_ge vs i (by omega)]

/-- go_to_disk_selection keeps the users list and lands on SelectDisk. -/
theorem go_to_disk_fields (env : ScanEnv) (a : App) :
    (go_to_disk_selection env a).users = a.users ∧
    (go_to_disk_selection env a).step = Step.SelectDisk ∧
    (go_to_disk_selection env a).hm_user_index = a.hm_user_index := by
  simp only [go_to_disk_selection]
  split <;> simp

/-- advance_to_next_hm_user at an exhausted index falls through to disk selection. -/
theorem advance_base (env : ScanEnv) (a : App) (h : ¬ a.hm_user_index < a.users.length) :
    advance_to_next_hm_user env a = go_to_disk_selection env a := by
  rw [advance_to_next_hm_user, dif_neg h]

/-- advance_to_next_hm_user at an in-range needy user scans modules for it and enters SelectHmModules. -/
theorem advance_true (env : ScanEnv) (a : App) (h : a.hm_user_index < a.users.length)
    (hf : (a.users.get ⟨a.hm_user_index, h⟩).needs_hm_selection = true) :
    advance_to_next_hm_user env a =
      { a with users := a.users.set a.hm_user_index { a.users.get ⟨a.hm_user_index, h⟩ with hm_modules := env.scan_hm_modules, package_modules := env.scan_package_modules },
               hm_modules := env.scan_hm_modules,
               hm_cursor := 0,
               step := Step.SelectHmModules } := by
  rw [advance_to_next_hm_user, dif_pos h, if_pos hf]

/-- advance_to_next_hm_user skips an in-range user that does not need selection. -/
theorem advance_false (env : ScanEnv) (a : App) (h : a.hm_user_index < a.users.length)
    (hf : (a.users.get ⟨a.hm_user_index, h⟩).needs_hm_selection = false) :
    advance_to_next_hm_user env a =
      advance_to_next_hm_user env { a with hm_user_index := a.hm_user_index + 1 } := by
  have hf2 : ¬ (a.users.get ⟨a.hm_user_index, h⟩).needs_hm_selection = true := by
    rw [hf]
    exact Bool.false_ne_true
  rw [advance_to_next_hm_user, dif_pos h, if_neg hf2]

/-- advance_to_next_hm_user preserves the users length and flags, lands on SelectHmModules exactly at the least needy index at or beyond the current one, and otherwise on SelectDisk. -/
theorem advance_spec (env : ScanEnv) : ∀ (n : Nat) (a : App),
    a.users.length - a.hm_user_index ≤ n →
    ((advance_to_next_hm_user env a).users.length = a.users.length ∧
     (∀ k, needsAt (advance_to_next_hm_user env a).users k = needsAt a.users k) ∧
     (needyFrom a.users a.hm_user_index = [] →
        (advance_to_next_hm_user env a).step = Step.SelectDisk) ∧
     (∀ j rest, needyFrom a.users a.hm_user_index = j :: rest →
        (advance_to_next_hm_user env a).step = Step.SelectHmModules ∧
        (advance_to_next_hm_user env a).hm_user_index = j)) := by
  intro n
  induction n with
  | zero =>
    intro a hn
    have hnl : ¬ a.hm_user_index < a.users.length := by omega
    rw [advance_base env a hnl]
    obtain ⟨hu, hs, _⟩ := go_to_disk_fields env a
    refine ⟨by rw [hu], fun k => by rw [hu], fun _ => hs, ?_⟩
    intro j rest hx
    rw [needyFrom_ge a.users a.hm_user_index (by omega)] at hx
    cases hx
  | succ n ih =>
    intro a hn
    by_cases hlt : a.hm_user_index < a.users.length
    · by_cases hflag : (a.users.get ⟨a.hm_user_index, hlt⟩).needs_hm_selection = true
      · have hfa : needsAt a.users a.hm_user_index = true := by
          rw [needsAt_lt a.users a.hm_user_index hlt]; exact hflag
        rw [advance_true env a hlt hflag]
        refine ⟨by simp [List.length_set], ?_, ?_, ?_⟩
        · intro k
          simp only
          exact needsAt_set_preserve a.users a.hm_user_index _ k
            (fun u1 hu1 => by rw [List.get?_eq_get hlt] at hu1; injection hu1 with e; rw [← e])
        · intro hx
          rw [needyFrom_lt_true a.users a.hm_user_index hlt hfa] at hx
          cases hx
        · intro j rest hx
          rw [needyFrom_lt_true a.users a.hm_user_index hlt hfa] at hx
          injection hx with e1 e2
          subst e1
          exact ⟨rfl, rfl⟩
      · have hfa : needsAt a.users a.hm_user_index = false := by
          rw [needsAt_lt a.users a.hm_user_index hlt]; simpa using hflag
        rw [advance_false env a hlt (by simpa using hflag)]
        have hrec := ih { a with hm_user_index := a.hm_user_index + 1 } (by simp; omega)
        simp only at hrec
        obtain ⟨r1, r2, r3, r4⟩ := hrec
        rw [needyFrom_lt_false a.users a.hm_user_index hlt hfa]
        exact ⟨r1, r2, r3, r4⟩
    · rw [advance_base env a hlt]
      obtain ⟨hu, hs, _⟩ := go_to_disk_fields env a
      refine ⟨by rw [hu], fun k => by rw [hu], fun _ => hs, ?_⟩
      intro j rest hx
      rw [needyFrom_ge a.users a.hm_user_index (by omega)] at hx
      cases hx



/-- Confirming the module screen and then the package screen for the current user equals re-advancing from the next index, preserving length and flags. -/
theorem confirm_pair_eq_advance (env : ScanEnv) (a : App) (h : a.hm_user_index < a.users.length) :
    ∃ B : App, confirm_user_packages env (confirm_hm_modules a) = advance_to_next_hm_user env B ∧
      B.users.length = a.users.length ∧
      (∀ k, needsAt B.users k = needsAt a.users k) ∧
      B.hm_user_index = a.hm_user_index + 1 := by
  have hu : a.users.get? a.hm_user_index = some (a.users.get ⟨a.hm_user_index, h⟩) :=
    List.get?_eq_get h
  have hC : confirm_hm_modules a = { a with users := a.users.set a.hm_user_index { a.users.get ⟨a.hm_user_index, h⟩ with hm_modules := a.hm_modules }, user_pkg_modules := (a.users.get ⟨a.hm_user_index, h⟩).package_modules, user_pkg_cursor := 0, step := Step.SelectUserPackages } := by
    simp only [confirm_hm_modules, hu]
  refine ⟨{ a with users := (a.users.set a.hm_user_index { a.users.get ⟨a.hm_user_index, h⟩ with hm_modules := a.hm_modules }).set a.hm_user_index { a.users.get ⟨a.hm_user_index, h⟩ with hm_modules := a.hm_modules, package_modules := (a.users.get ⟨a.hm_user_index, h⟩).package_modules },
                   user_pkg_modules := (a.users.get ⟨a.hm_user_index, h⟩).package_modules,
                   user_pkg_cursor := 0,
                   step := Step.SelectUserPackages,
                   hm_user_index := a.hm_user_index + 1 }, ?_, ?_, ?_, ?_⟩
  · rw [hC]
    simp only [confirm_user_packages, List.get?_set_eq, hu, Option.map_some]
  · simp only [List.length_set]
  · intro k
    simp only
    rw [needsAt_set_preserve, needsAt_set_preserve]
    · intro u1 hu1
      rw [hu] at hu1
      injection hu1 with e
      rw [← e]
    · intro u1 hu1
      rw [List.get?_set_eq, hu] at hu1
      injection hu1 with e
      rw [← e]
  · simp only

/-- Running the selection walk after an advance shows exactly the module and package screens of the needy users, in index order, and ends on SelectDisk. -/
theorem run_after_advance (env : ScanEnv) : ∀ (n : Nat) (a : App),
    a.users.length - a.hm_user_index ≤ n →
    ∀ fuel, a.users.length - a.hm_user_index ≤ fuel →
      (run_hm_phase_aux env fuel (advance_to_next_hm_user env a)).1 =
        (needyFrom a.users a.hm_user_index).flatMap
          (fun j => [(j, Step.SelectHmModules), (j, Step.SelectUserPackages)]) ∧
      (run_hm_phase_aux env fuel (advance_to_next_hm_user env a)).2.step = Step.SelectDisk := by
  intro n
  induction n with
  | zero =>
    intro a hn fuel hfuel
    have hnil : needyFrom a.users a.hm_user_index = [] := needyFrom_ge _ _ (by omega)
    obtain ⟨_, _, hdisk, _⟩ := advance_spec env 0 a hn
    have hstep := hdisk hnil
    rw [hnil]
    cases fuel with
    | zero => exact ⟨rfl, hstep⟩
    | succ f =>
      simp only [run_hm_phase_aux]
      rw [if_neg (by rw [hstep]; decide)]
      exact ⟨rfl, hstep⟩
  | succ n ih =>
    intro a hn fuel hfuel
    cases hN : needyFrom a.users a.hm_user_index with
    | nil =>
      obtain ⟨_, _, hdisk, _⟩ := advance_spec env (n + 1) a hn
      have hstep := hdisk hN
      cases fuel with
      | zero => exact ⟨rfl, hstep⟩
      | succ f =>
        simp only [run_hm_phase_aux]
        rw [if_neg (by rw [hstep]; decide)]
        exact ⟨rfl, hstep⟩
    | cons j rest =>
      obtain ⟨hlen, hflags, _, hcons⟩ := advance_spec env (n + 1) a hn
      obtain ⟨hstep, hidx⟩ := hcons j rest hN
      obtain ⟨hij, hjlen, hflagj, hrest⟩ := needyFrom_cons a.users a.hm_user_index j rest hN
      cases fuel with
      | zero => omega
      | succ f =>
        simp only [run_hm_phase_aux]
        rw [if_pos hstep]
        have hjA : (advance_to_next_hm_user env a).hm_user_index < (advance_to_next_hm_user env a).users.length := by
          rw [hidx, hlen]
          exact hjlen
        obtain ⟨B, hB, hBlen, hBflags, hBidx⟩ := confirm_pair_eq_advance env (advance_to_next_hm_user env a) hjA
        rw [hB]
        have hflagsBA : ∀ k, needsAt B.users k = needsAt a.users k :=
          fun k => (hBflags k).trans (hflags k)
        have hlenBA : B.users.length = a.users.length := hBlen.trans hlen
        have hneedyB : needyFrom B.users B.hm_user_index = rest := by
          rw [hBidx, hidx, hrest]
          exact needyFrom_congr B.users a.users hlenBA hflagsBA (j + 1)
        have hnB : B.users.length - B.hm_user_index ≤ n := by
          rw [hBidx, hidx, hlenBA]
          omega
        have hfB : B.users.length - B.hm_user_index ≤ f := by
          rw [hBidx, hidx, hlenBA]
          omega
        obtain ⟨ht, hs⟩ := ih B hnB f hfB
        rw [hneedyB] at ht
        refine ⟨?_, hs⟩
        rw [hidx, ht]
        rw [List.flatMap_cons]
        rfl

/-- Counting a module or package screen in the two-screens-per-user trace counts the user index. -/
theorem count_flatMap_pairs (l : List Nat) (k : Nat) :
    ((l.flatMap fun j => [(j, Step.SelectHmModules), (j, Step.SelectUserPackages)]).count (k, Step.SelectHmModules) = l.count k) ∧
    ((l.flatMap fun j => [(j, Step.SelectHmModules), (j, Step.SelectUserPackages)]).count (k, Step.SelectUserPackages) = l.count k) := by
  induction l with
  | nil => simp
  | cons j rest ih =>
    rw [List.flatMap_cons]
    constructor
    · show List.count _ ((j, Step.SelectHmModules) :: (j, Step.SelectUserPackages) :: _) = _
      by_cases hjk : j = k
      · subst hjk
        simp [List.count_cons, ih.1]
      · simp [List.count_cons, ih.1, hjk, Prod.ext_iff]
    · show List.count _ ((j, Step.SelectHmModules) :: (j, Step.SelectUserPackages) :: _) = _
      by_cases hjk : j = k
      · subst hjk
        simp [List.count_cons, ih.2]
      · simp [List.count_cons, ih.2, hjk, Prod.ext_iff]


/-- Claim C7: the selection walk after user creation visits users in
creation order; a user whose needs-selection flag is false is never routed
through the module-selection or package-selection screens, while a user
whose flag is true visits exactly one module-selection screen and exactly
one package-selection screen, and the wizard then advances to disk
selection. -/
theorem hm_selection_routing (env : ScanEnv) (a : App) :
    ((run_hm_phase env a).2.step = Step.SelectDisk) ∧
    ((run_hm_phase env a).1 =
      (needyFrom a.users 0).flatMap
        (fun j => [(j, Step.SelectHmModules), (j, Step.SelectUserPackages)])) ∧
    ∀ k : Nat,
      ((run_hm_phase env a).1.count (k, Step.SelectHmModules) =
        if needsAt a.users k = true then 1 else 0) ∧
      ((run_hm_phase env a).1.count (k, Step.SelectUserPackages) =
        if needsAt a.users k = true then 1 else 0) := by
  obtain ⟨ht, hs⟩ := run_after_advance env a.users.length { a with hm_user_index := 0 }
    (by simp) a.users.length (by simp)
  have hrun : run_hm_phase env a =
      run_hm_phase_aux env a.users.length
        (advance_to_next_hm_user env { a with hm_user_index := 0 }) := rfl
  refine ⟨by rw [hrun]; exact hs, by rw [hrun]; exact ht, ?_⟩
  intro k
  rw [hrun, ht]
  obtain ⟨c1, c2⟩ := count_flatMap_pairs (needyFrom ({ a with hm_user_index := 0 } : App).users ({ a with hm_user_index := 0 } : App).hm_user_index) k
  rw [c1, c2, needyFrom_count]
  constructor <;> simp

end Installer
